import Mathlib

/-
Verification of the grok lattice/policy library.

The development shallowly embeds the Go sources:
  * lattice.go  — lattice construction (`parse`), traversal (`childrenOf`,
    `parentsOf`), the algebra (`Meet`, `Join`, `Precede`) and the policy
    primitives (`Allow`, `overlap`, `Deny`);
  * policy.go   — clause/policy parsing (`parseClauseTokens`,
    `parsePolicyTokens`, `ParsePolicy`, `ParseClause`) and the recursive
    evaluator (`ApplyOn`).

Go's unbounded `for` loops are embedded with an explicit fuel argument;
`none` marks fuel exhaustion, so `∃ fuel, f fuel … = some v` states that the
Go loop terminates with value `v`, and `∀ fuel, f fuel … = none` states that
it diverges.  Fuel is threaded through callers unchanged; it is consumed only
by the loop iterations themselves.  Go maps (the lattice registry `baseOn`)
are embedded as association lists; every observable proved below is
insensitive to the iteration order.  Out-of-range slice indexing, which
panics in Go, is embedded as `List.getD _ ""`; no theorem below depends on an
out-of-range access.
-/

namespace Grok

/-- TOP constant of every lattice (lattice.go). -/
def Top : String := "TOP"

/-- BOTTOM constant of every lattice (lattice.go). -/
def Bottom : String := "BOTTOM"

/-- contains returns a boolean when a slice arr contains a string str (lattice.go). -/
def contains : List String → String → Bool
  | [], _ => false
  | e :: rest, str => if e = str then true else contains rest str

/-- Edge is a directed covering edge From → To of a lattice (lattice.go). -/
structure Edge where
  From : String
  To : String
deriving DecidableEq, Repr

/-- Lattice is a named finite partial order given by its covering edges
(lattice.go).  The optional product `state` lattice of the spec is not part
of the sources under src/ and is modelled separately below. -/
structure Lattice where
  Name : String
  Edges : List Edge
deriving DecidableEq, Repr

/-- Lexicographic code-point comparison of character lists; on UTF-8 data
this is exactly the byte order of Go's strings.Compare. -/
def charListLe : List Char → List Char → Bool
  | [], _ => true
  | _ :: _, [] => false
  | c :: cs, d :: ds =>
    if c.val < d.val then true
    else if d.val < c.val then false
    else charListLe cs ds

/-- Lexicographic order on strings (strings.Compare ≤ 0). -/
def strLe (a b : String) : Bool := charListLe a.data b.data

/-- Insertion step for the lexicographic sort used by childrenOf/parentsOf. -/
def insertStr (s : String) : List String → List String
  | [] => [s]
  | t :: ts => if strLe s t then s :: t :: ts else t :: insertStr s ts

/-- Lexicographic ascending sort; embeds Go's sort.Slice with
strings.Compare (the sorted lists are duplicate-free, so stability is
irrelevant). -/
def sortStrings : List String → List String
  | [] => []
  | s :: ss => insertStr s (sortStrings ss)

/-- Accumulating loop of childrenOf: scan the edges, collecting the target of
every edge whose source is in nodes, skipping duplicates (lattice.go). -/
def childrenOfAux (nodes : List String) : List Edge → List String → List String
  | [], ch => ch
  | e :: es, ch =>
    if contains nodes e.From && !(contains ch e.To) then
      childrenOfAux nodes es (ch ++ [e.To])
    else
      childrenOfAux nodes es ch

/-- childrenOf returns children elements of input nodes, deduplicated and
sorted (lattice.go). -/
def Lattice.childrenOf (l : Lattice) (nodes : List String) : List String :=
  sortStrings (childrenOfAux nodes l.Edges [])

/-- Accumulating loop of parentsOf (lattice.go). -/
def parentsOfAux (nodes : List String) : List Edge → List String → List String
  | [], pa => pa
  | e :: es, pa =>
    if contains nodes e.To && !(contains pa e.From) then
      parentsOfAux nodes es (pa ++ [e.From])
    else
      parentsOfAux nodes es pa

/-- parentsOf returns parents of a slice of elements, deduplicated and sorted
(lattice.go). -/
def Lattice.parentsOf (l : Lattice) (nodes : List String) : List String :=
  sortStrings (parentsOfAux nodes l.Edges [])

/-- parse builds a Lattice from a name and a from-node → to-nodes map
(lattice.go).  The JSON map is embedded as an association list in the
textual order of the JSON object (Go iterates the map in unspecified order;
all observables proved below are insensitive to the edge order). -/
def parseLat (name : String) (edgeMap : List (String × List String)) : Lattice :=
  let step := edgeMap.foldl
    (fun (acc : List Edge × List String) p =>
      if p.2.isEmpty then (acc.1, acc.2 ++ [p.1])
      else (acc.1 ++ p.2.map (fun t => Edge.mk p.1 t), acc.2))
    ([], [])
  let edges0 := step.1
  let ses := step.2
  let froms := edges0.foldl (fun fs e => if contains fs e.From then fs else fs ++ [e.From]) []
  let tos := edges0.foldl (fun ts e => if contains ts e.To then ts else ts ++ [e.To]) []
  let edges1 := edges0 ++ (froms.filter (fun f => !(contains tos f))).map (fun f => Edge.mk Top f)
  let edges2 := edges1 ++ (tos.filter (fun t => !(contains froms t))).map (fun t => Edge.mk t Bottom)
  let edges3 := edges2 ++ ses.foldl (fun acc se => acc ++ [Edge.mk Top se, Edge.mk se Bottom]) []
  ⟨name, edges3⟩

/-- Loop body of Meet (lattice.go): intersect the two frontiers; return when
the intersection has exactly one entry, otherwise swap the frontiers and
widen the first one downward by its children. -/
def meetLoop (l : Lattice) : Nat → List String → List String → Option String
  | 0, _, _ => none
  | fuel + 1, nodea, nodeb =>
    match nodea.filter (fun e => contains nodeb e) with
    | [r] => some r
    | _ => meetLoop l fuel nodeb (nodea ++ l.childrenOf nodea)

/-- Meet returns the greatest lower bound of two elements (lattice.go). -/
def Lattice.Meet (l : Lattice) (fuel : Nat) (a b : String) : Option String :=
  meetLoop l fuel [a] [b]

/-- Loop body of Join (lattice.go): dual of meetLoop via parentsOf. -/
def joinLoop (l : Lattice) : Nat → List String → List String → Option String
  | 0, _, _ => none
  | fuel + 1, nodea, nodeb =>
    match nodea.filter (fun e => contains nodeb e) with
    | [r] => some r
    | _ => joinLoop l fuel nodeb (nodea ++ l.parentsOf nodea)

/-- Join returns the least upper bound of two elements (lattice.go). -/
def Lattice.Join (l : Lattice) (fuel : Nat) (a b : String) : Option String :=
  joinLoop l fuel [a] [b]

/-- Loop of Precede (lattice.go): start from the frontier [b]; answer false
as soon as the frontier is exactly [BOTTOM], true as soon as it holds a,
otherwise descend via childrenOf. -/
def precedeLoop (l : Lattice) : Nat → String → List String → Option Bool
  | 0, _, _ => none
  | fuel + 1, a, chb =>
    if chb = [Bottom] then some false
    else if contains chb a then some true
    else precedeLoop l fuel a (l.childrenOf chb)

/-- Precede compares two elements in the partial order (lattice.go). -/
def Lattice.Precede (l : Lattice) (fuel : Nat) (a b : String) : Option Bool :=
  precedeLoop l fuel a [b]

/-- Inner loop of Allow (lattice.go): does some policy attribute dominate
the given annotation attribute? -/
def allowOne (l : Lattice) (fuel : Nat) (aattr : String) : List String → Option Bool
  | [] => some false
  | pattr :: rest =>
    match l.Precede fuel aattr pattr with
    | none => none
    | some true => some true
    | some false => allowOne l fuel aattr rest

/-- Outer loop of Allow (lattice.go). -/
def allowAux (l : Lattice) (fuel : Nat) (pattrs : List String) : List String → Option Bool
  | [] => some true
  | aattr :: rest =>
    match allowOne l fuel aattr pattrs with
    | none => none
    | some false => some false
    | some true => allowAux l fuel pattrs rest

/-- Allow returns true when annotation attributes are allowed by the policy
clause (lattice.go). -/
def Lattice.Allow (l : Lattice) (fuel : Nat) (pattrs aattrs : List String) : Option Bool :=
  allowAux l fuel pattrs aattrs

/-- Inner fold of overlap (lattice.go): r = Join(r, Meet(pattr, aattr)) over
the remaining annotation attributes. -/
def overlapFold (l : Lattice) (fuel : Nat) (pattr : String) (r : String) :
    List String → Option String
  | [] => some r
  | aattr :: rest =>
    match l.Meet fuel pattr aattr with
    | none => none
    | some m =>
      match l.Join fuel r m with
      | none => none
      | some r2 => overlapFold l fuel pattr r2 rest

/-- One policy attribute's overlap contribution (lattice.go): the first
annotation attribute seeds r with Meet(pattr, a0). -/
def overlapOne (l : Lattice) (fuel : Nat) (pattr : String) : List String → Option String
  | [] => none
  | a0 :: rest =>
    match l.Meet fuel pattr a0 with
    | none => none
    | some r => overlapFold l fuel pattr r rest

/-- Loop of overlap over the policy attributes (lattice.go). -/
def overlapAux (l : Lattice) (fuel : Nat) (aattrs : List String) :
    List String → Option (List String)
  | [] => some []
  | pattr :: rest =>
    match overlapOne l fuel pattr aattrs with
    | none => none
    | some r =>
      match overlapAux l fuel aattrs rest with
      | none => none
      | some rs => some (r :: rs)

/-- overlap returns overlaps of policy attributes and annotation attributes
(lattice.go); an empty annotation list yields the empty sequence at once. -/
def Lattice.overlap (l : Lattice) (fuel : Nat) (pattrs aattrs : List String) :
    Option (List String) :=
  match aattrs with
  | [] => some []
  | _ => overlapAux l fuel aattrs pattrs

/-- Scan of Deny (lattice.go): false as soon as an overlap equals BOTTOM. -/
def denyScan : List String → Bool
  | [] => true
  | ol :: rest => if ol = Bottom then false else denyScan rest

/-- Deny returns true when annotation attributes are denied by the policy
clause (lattice.go). -/
def Lattice.Deny (l : Lattice) (fuel : Nat) (pattrs aattrs : List String) : Option Bool :=
  match l.overlap fuel pattrs aattrs with
  | none => none
  | some ols => some (denyScan ols)

/-- Does a value carry the product separator? -/
def hasSep (s : String) : Bool := s.data.contains ':'

/-- Splitting a character list at every colon (the semantics of splitting a
string at the separator). -/
def splitColonAux : List Char → List Char → List String
  | cur, [] => [⟨cur.reverse⟩]
  | cur, c :: cs =>
    if c = ':' then ⟨cur.reverse⟩ :: splitColonAux [] cs
    else splitColonAux (c :: cur) cs

/-- Split a product value first:second into its halves; a bare value has the
state lattice's TOP as its second half. -/
def splitProd (s : String) : String × String :=
  match splitColonAux [] s.data with
  | [f, sec] => (f, sec)
  | _ => (s, Top)

/-- Modelled from the spec: the product-aware Meet of a base lattice with an
attached state lattice.  The `Product`/`state` code of this repository is
not under src/ (only its tests in the test snapshot and the demo caller
are); per spec §4.2, if either operand contains a product separator, each
operand is split into (first, second) halves, Meet is computed
component-wise — first half against the base lattice, second half against
the state lattice — and the results recombine as first:second, the second
half being omitted when it equals the state lattice's TOP. -/
def productMeet (base state : Lattice) (fuel : Nat) (a b : String) : Option String :=
  if hasSep a || hasSep b then
    match base.Meet fuel (splitProd a).1 (splitProd b).1,
          state.Meet fuel (splitProd a).2 (splitProd b).2 with
    | some f, some s => some (if s = Top then f else f ++ ":" ++ s)
    | _, _ => none
  else base.Meet fuel a b

/-- Modelled from the spec: the product-aware Join, the dual of
`productMeet` per spec §4.3 (same decomposition and recombination,
component-wise Join). -/
def productJoin (base state : Lattice) (fuel : Nat) (a b : String) : Option String :=
  if hasSep a || hasSep b then
    match base.Join fuel (splitProd a).1 (splitProd b).1,
          state.Join fuel (splitProd a).2 (splitProd b).2 with
    | some f, some s => some (if s = Top then f else f ++ ":" ++ s)
    | _, _ => none
  else base.Join fuel a b

/-- pair of attribute name and attribute value (policy.go). -/
structure Pair where
  name : String
  value : String
deriving DecidableEq, Repr

/-- Policy tree: mode, clause and exceptions (policy.go).  The registry
baseOn, which Go stores in every node, is the same map across the whole
tree (the parser copies `p.baseOn` into each node); it is embedded as an
explicit parameter of the functions below instead of a field. -/
inductive Policy where
  | mk (Mode : Bool) (Clause : List Pair) (Excepts : List Policy)
deriving Repr

/-- Mode of a policy node (true = ALLOW, false = DENY). -/
def Policy.Mode : Policy → Bool
  | .mk m _ _ => m

/-- Clause of a policy node. -/
def Policy.Clause : Policy → List Pair
  | .mk _ c _ => c

/-- Exceptions of a policy node. -/
def Policy.Excepts : Policy → List Policy
  | .mk _ _ e => e

/-- ValuesOf returns the attribute values of a Clause whose attribute name
is attr (policy.go). -/
def ValuesOf (c : List Pair) (attr : String) : List String :=
  (c.filter (fun p => attr = p.name)).map (fun p => p.value)

/-- The lattice registry baseOn: lattice name → lattice, embedded as an
association list. -/
abbrev Registry := List (String × Lattice)

/-- ALLOW-mode per-lattice loop of ApplyOn (policy.go): every registry
lattice's Allow check must pass. -/
def allowLats (fuel : Nat) (clause an : List Pair) : Registry → Option Bool
  | [] => some true
  | (attr, l) :: rest =>
    match l.Allow fuel (ValuesOf clause attr) (ValuesOf an attr) with
    | none => none
    | some false => some false
    | some true => allowLats fuel clause an rest

/-- DENY-mode per-lattice loop of ApplyOn (policy.go): the annotation
escapes as soon as one registry lattice's Deny check fails. -/
def denyEscape (fuel : Nat) (clause an : List Pair) : Registry → Option Bool
  | [] => some false
  | (attr, l) :: rest =>
    match l.Deny fuel (ValuesOf clause attr) (ValuesOf an attr) with
    | none => none
    | some false => some true
    | some true => denyEscape fuel clause an rest

/-- DENY-mode derived annotation of ApplyOn (policy.go): per registry
lattice, overlap of the annotation's values (as pattrs) with the clause's
values (as aattrs) — note the argument order, as in the source. -/
def overlapAnn (fuel : Nat) (clause an : List Pair) : Registry → Option (List Pair)
  | [] => some []
  | (attr, l) :: rest =>
    match l.overlap fuel (ValuesOf an attr) (ValuesOf clause attr) with
    | none => none
    | some vs =>
      match overlapAnn fuel clause an rest with
      | none => none
      | some ps => some (vs.map (fun v => Pair.mk attr v) ++ ps)

mutual
/-- ApplyOn decides whether a policy can apply on an annotation
(policy.go): ALLOW mode requires every lattice's Allow check and every
exception to hold; DENY mode lets the annotation escape when some lattice's
Deny check fails, and otherwise re-evaluates the exceptions on the derived
overlap annotation. -/
def ApplyOn (reg : Registry) (fuel : Nat) : Policy → List Pair → Option Bool
  | .mk m clause excepts, an =>
    if m then
      match allowLats fuel clause an reg with
      | none => none
      | some false => some false
      | some true => exceptsAllTrue reg fuel excepts an
    else
      match denyEscape fuel clause an reg with
      | none => none
      | some true => some true
      | some false =>
        match overlapAnn fuel clause an reg with
        | none => none
        | some ov => exceptsAnyTrue reg fuel excepts ov

/-- ALLOW-mode exception loop of ApplyOn: every exception must apply. -/
def exceptsAllTrue (reg : Registry) (fuel : Nat) : List Policy → List Pair → Option Bool
  | [], _ => some true
  | ex :: rest, an =>
    match ApplyOn reg fuel ex an with
    | none => none
    | some false => some false
    | some true => exceptsAllTrue reg fuel rest an

/-- DENY-mode exception loop of ApplyOn: some exception must apply. -/
def exceptsAnyTrue (reg : Registry) (fuel : Nat) : List Policy → List Pair → Option Bool
  | [], _ => some false
  | ex :: rest, an =>
    match ApplyOn reg fuel ex an with
    | none => none
    | some true => some true
    | some false => exceptsAnyTrue reg fuel rest an
end

/-- Whitespace splitter over a character list, dropping empty fields. -/
def splitWsAux : List Char → List Char → List String
  | cur, [] => if cur = [] then [] else [⟨cur.reverse⟩]
  | cur, c :: cs =>
    if c.isWhitespace then
      (if cur = [] then [] else [⟨cur.reverse⟩]) ++ splitWsAux [] cs
    else splitWsAux (c :: cur) cs

/-- Tokenizer: policy and annotation strings are split at whitespace.  Go
uses text/scanner; on the grammar's streams of identifiers and
space-separated braces, the token sequences coincide. -/
def tokenize (s : String) : List String :=
  splitWsAux [] s.data

/-- Scan of LatticeName over the registry (policy.go). -/
def latticeNameAux (s : String) : Registry → Except String String
  | [] => .error ("policy: " ++ s ++ " is not a valid lattice name")
  | (_, l) :: rest => if s = l.Name then .ok l.Name else latticeNameAux s rest

/-- LatticeName returns a valid lattice name, or an error (policy.go). -/
def LatticeName (reg : Registry) (s : String) : Except String String :=
  latticeNameAux s reg

/-- Registry lookup baseOn[name]. -/
def lookupLat : Registry → String → Option Lattice
  | [], _ => none
  | (n, l) :: rest, name => if n = name then some l else lookupLat rest name

/-- Scan of LatticeValue over a lattice's edges (policy.go). -/
def edgeHas (s : String) : List Edge → Bool
  | [] => false
  | e :: rest => if s = e.From || s = e.To then true else edgeHas s rest

/-- LatticeValue returns a valid lattice value of the named lattice, or an
error (policy.go).  A missing registry entry, on which Go would fault, is
embedded as the same error; it is unreachable after LatticeName succeeded. -/
def LatticeValue (reg : Registry) (s name : String) : Except String String :=
  match lookupLat reg name with
  | none => .error ("policy: " ++ s ++ " is not a valid value in lattice " ++ name)
  | some l =>
    if edgeHas s l.Edges then .ok s
    else .error ("policy: " ++ s ++ " is not a valid value in lattice " ++ name)

/-- Loop of parseClauseTokens (policy.go): alternate between reading an
attribute name and an attribute value; a trailing name is dropped, as in
the source. -/
def parseClauseAux (reg : Registry) : String → List Pair → List String →
    Except String (List Pair)
  | _, acc, [] => .ok acc
  | currLa, acc, tt :: rest =>
    if currLa = "" then
      match LatticeName reg tt with
      | .error e => .error e
      | .ok la => parseClauseAux reg la acc rest
    else
      match LatticeValue reg tt currLa with
      | .error e => .error e
      | .ok lv => parseClauseAux reg "" (acc ++ [Pair.mk currLa lv]) rest

/-- parseClauseTokens parses a slice of tokens to a Clause (policy.go). -/
def parseClauseTokens (reg : Registry) (ts : List String) : Except String (List Pair) :=
  parseClauseAux reg "" [] ts

/-- Scan of the suffix ts[i..] for the first EXCEPT token, carrying the
index (policy.go, the `for i < n && Except != ts[i]` loop). -/
def scanToExceptAux : List String → Nat → Nat
  | [], i => i
  | t :: rest, i => if t = "EXCEPT" then i else scanToExceptAux rest (i + 1)

/-- Index of the first EXCEPT token at position ≥ i; ts.length when absent. -/
def scanToExcept (ts : List String) (i : Nat) : Nat :=
  scanToExceptAux (ts.drop i) i

/-- Brace-depth update of the splitting loop (policy.go: the two ifs that
increment the depth at an opening brace and decrement it at a closing
brace). -/
def depthStep (tok : String) (depth : Int) : Int :=
  let d1 : Int := if tok = "\x7b" then depth + 1 else depth
  if tok = "\x7d" then d1 - 1 else d1

/-- The sibling-splitting loop of parsePolicyTokens (policy.go): walk the
except region tracking brace depth; a sibling slice ts[pi:i] is cut
whenever the opposite-mode keyword occurs at depth 0, and the final slice
ts[pi:n-1] is cut at index n-2, after which the loop exits.  The Go loop
`for i < n-1 { ...; i++ }` is embedded structurally: the countdown k
stands for the remaining iterations (n-1) - i, so the callers pass
k = (n-1) - i₀.  This loop only cuts the slices; the recursive parses of
the slices happen in parsePolicyTokens, in the same order and with the
same first-error result as the interleaved Go loop. -/
def splitExcepts (ts : List String) (mode : String) : Nat → Nat → Nat → Int →
    List (List String) → List (List String)
  | 0, _, _, _, acc => acc
  | k + 1, pi, i, depth, acc =>
    let d2 : Int := depthStep (ts.getD i "") depth
    if i = ts.length - 2 then
      acc ++ [(ts.drop pi).take (ts.length - 1 - pi)]
    else if d2 = 0 ∧ mode = ts.getD i "" then
      splitExcepts ts mode k i (i + 1) d2 (acc ++ [(ts.drop pi).take (i - pi)])
    else
      splitExcepts ts mode k pi (i + 1) d2 acc

/-- Sequential recursive parsing of the sibling exception slices, stopping
at the first error (policy.go's interleaved loop, with f the recursive
parse at the remaining fuel). -/
def parseChildrenWith (f : List String → Option (Except String Policy)) :
    List (List String) → Option (Except String (List Policy))
  | [] => some (.ok [])
  | s :: ss =>
    match f s with
    | none => none
    | some (.error e) => some (.error e)
    | some (.ok p) =>
      match parseChildrenWith f ss with
      | none => none
      | some (.error e) => some (.error e)
      | some (.ok ps) => some (.ok (p :: ps))

/-- The required mode keyword of the except region: the opposite of the
enclosing policy's mode (policy.go, the `var mode string` computation). -/
def oppMode (mode : Bool) : String :=
  if mode then "DENY" else "ALLOW"

/-- parsePolicyTokens parses a slice of tokens to a Policy (policy.go,
the error-returning version): the leading token fixes the mode, the tokens
before the first EXCEPT form the clause, and a brace-wrapped except region
of the opposite mode is split into sibling slices, each parsed
recursively.  The fuel bounds only the nesting recursion. -/
def parsePolicyTokens (reg : Registry) : Nat → List String → Option (Except String Policy)
  | 0, _ => none
  | fuel + 1, ts =>
    let n := ts.length
    let t0 := ts.getD 0 ""
    if t0 = "ALLOW" || t0 = "DENY" then
      let mode : Bool := t0 = "ALLOW"
      let i := scanToExcept ts 1
      match parseClauseTokens reg ((ts.drop 1).take (i - 1)) with
      | .error e => some (.error e)
      | .ok clause =>
        if i < n then
          if ts.getD (i + 1) "" ≠ "\x7b" || ts.getD (n - 1) "" ≠ "\x7d" then
            some (.error "policy: except clause isn\x27t warpped by \x7b and \x7d")
          else
            if ts.getD (i + 2) "" ≠ oppMode mode then
              some (.error "policy: except clause doesn\x27t have the opposite mode")
            else
              match parseChildrenWith (parsePolicyTokens reg fuel)
                  (splitExcepts ts (oppMode mode) (n - 1 - (i + 3)) (i + 2) (i + 3) 0 []) with
              | none => none
              | some (.error e) => some (.error e)
              | some (.ok exs) => some (.ok (.mk mode clause exs))
        else some (.ok (.mk mode clause []))
    else some (.error "policy: don\x27t start with ALLOW or DENY")

/-- ParsePolicy parses a policy string (policy.go). -/
def ParsePolicy (reg : Registry) (fuel : Nat) (pstr : String) :
    Option (Except String Policy) :=
  parsePolicyTokens reg fuel (tokenize pstr)

/-- ParseClause parses a clause string, checking the name-value parity
(policy.go). -/
def ParseClause (reg : Registry) (str : String) : Except String (List Pair) :=
  let tokens := tokenize str
  if tokens.length % 2 ≠ 0 then .error "policy: clause is not composed of name-value pairs"
  else parseClauseTokens reg tokens

/-- ParseAnnot embeds policy.go's annotation parser (an annotation is a
clause used as a label). -/
def ParseAnnot (reg : Registry) (str : String) : Except String (List Pair) :=
  ParseClause reg str

/-- End-to-end evaluation, as in the repository's demo entry point: parse
the policy text, parse the annotation text, then ApplyOn. -/
def evalPolicy (reg : Registry) (fuel : Nat) (pstr astr : String) :
    Option (Except String Bool) :=
  match ParsePolicy reg fuel pstr with
  | none => none
  | some (.error e) => some (.error e)
  | some (.ok p) =>
    match ParseAnnot reg astr with
    | .error e => some (.error e)
    | .ok an =>
      match ApplyOn reg fuel p an with
      | none => none
      | some b => some (.ok b)

/-- The DataType lattice of the tests and the demo, built from
{UniqueID → [AccountID, IPAddress], Location → [IPAddress]}. -/
def dataType : Lattice :=
  parseLat "DataType" [("UniqueID", ["AccountID", "IPAddress"]), ("Location", ["IPAddress"])]

/-- The TypeState lattice of the tests, built from
{Encrypted → [], Hashed → [], Truncated → [Redacted]}. -/
def typeState : Lattice :=
  parseLat "TypeState" [("Encrypted", []), ("Hashed", []), ("Truncated", ["Redacted"])]

/-- Registry holding the DataType lattice. -/
def dtReg : Registry := [("DataType", dataType)]

/-- Elements of a lattice: the nodes occurring in its edges, deduplicated. -/
def latticeNodes (l : Lattice) : List String :=
  l.Edges.foldl
    (fun ns e =>
      let ns1 := if contains ns e.From then ns else ns ++ [e.From]
      if contains ns1 e.To then ns1 else ns1 ++ [e.To])
    []

/-- Bounded downward reachability check: expand the frontier by childrenOf,
looking for BOTTOM. -/
def reachesBottom (l : Lattice) : Nat → List String → Bool
  | 0, front => contains front Bottom
  | fuel + 1, front =>
    if contains front Bottom then true else reachesBottom l fuel (l.childrenOf front)

/-- A finite lattice as the termination claim hypothesises it: a unique
maximal element TOP, a unique minimal element BOTTOM, and BOTTOM reachable
downward from every element. -/
def wellFormedLattice (l : Lattice) : Bool :=
  let ns := latticeNodes l
  (ns.filter (fun x => !(l.Edges.any (fun e => e.To = x)))) = [Top] &&
  (ns.filter (fun x => !(l.Edges.any (fun e => e.From = x)))) = [Bottom] &&
  ns.all (fun x => reachesBottom l ns.length [x])

/-- Meet(a, b) terminates: some fuel lets the loop return. -/
def MeetTerminates (l : Lattice) (a b : String) : Prop :=
  ∃ fuel, (meetLoop l fuel [a] [b]).isSome

/-- Join(a, b) terminates. -/
def JoinTerminates (l : Lattice) (a b : String) : Prop :=
  ∃ fuel, (joinLoop l fuel [a] [b]).isSome

/-- Precede(a, b) terminates. -/
def PrecedeTerminates (l : Lattice) (a b : String) : Prop :=
  ∃ fuel, (precedeLoop l fuel a [b]).isSome

/-- Precede(a, b) terminates with result v. -/
def PrecedeRes (l : Lattice) (a b : String) (v : Bool) : Prop :=
  ∃ fuel, precedeLoop l fuel a [b] = some v

/-- The frontier pair of Meet after k widening steps (used to name the
intermediate states of a Meet run). -/
def meetStates (l : Lattice) : Nat → List String × List String → List String × List String
  | 0, st => st
  | k + 1, (nodea, nodeb) => meetStates l k (nodeb, nodea ++ l.childrenOf nodea)

mutual
/-- Every exception child, at every depth, has the mode opposite to its
parent's. -/
def modesAlternate : Policy → Bool
  | .mk m _ exs => modesAlternateList m exs

/-- List form of modesAlternate under a parent mode m. -/
def modesAlternateList (m : Bool) : List Policy → Bool
  | [] => true
  | e :: rest => (e.Mode = !m) && modesAlternate e && modesAlternateList m rest
end

/-- A lattice of the termination counterexample: a genuine finite lattice
(all binary meets and joins exist and are unique) with unique TOP/BOTTOM
and BOTTOM reachable downward from every element, on which the alternating
frontier widening of Meet("a", "b") never produces an intersection of
exactly one entry. -/
def badLat : Lattice :=
  ⟨"Bad",
    [⟨Top, "a"⟩, ⟨Top, "b"⟩, ⟨"a", "m"⟩, ⟨"a", "p"⟩, ⟨"b", "q"⟩, ⟨"b", "r"⟩,
     ⟨"q", "m"⟩, ⟨"m", Bottom⟩, ⟨"p", Bottom⟩, ⟨"r", Bottom⟩]⟩

/-- contains agrees with list membership. -/
theorem contains_iff (L : List String) (s : String) : contains L s = true ↔ s ∈ L := by
  induction L with
  | nil => simp [contains]
  | cons e rest ih =>
    simp only [contains]
    split
    · next h => subst h; simp
    · next h =>
      rw [ih, List.mem_cons]
      constructor
      · exact Or.inr
      · rintro (hs | hs)
        · exact absurd hs.symm h
        · exact hs

/-- Once two distinct elements lie in both frontiers, every later
intersection of Meet's loop keeps both of them, so the loop never returns. -/
theorem meetLoop_stuck (l : Lattice) (x y : String) (hxy : x ≠ y) :
    ∀ (fuel : Nat) (A B : List String), x ∈ A → y ∈ A → x ∈ B → y ∈ B →
    meetLoop l fuel A B = none := by
  intro fuel
  induction fuel with
  | zero => intro A B _ _ _ _; rfl
  | succ fuel ih =>
    intro A B hxA hyA hxB hyB
    have hxr : x ∈ A.filter (fun e => contains B e) :=
      List.mem_filter.mpr ⟨hxA, (contains_iff B x).mpr hxB⟩
    have hyr : y ∈ A.filter (fun e => contains B e) :=
      List.mem_filter.mpr ⟨hyA, (contains_iff B y).mpr hyB⟩
    simp only [meetLoop]
    split
    · next r heq =>
      rw [heq] at hxr hyr
      simp only [List.mem_singleton] at hxr hyr
      exact absurd (hxr.trans hyr.symm) hxy
    · next heq =>
      exact ih B (A ++ l.childrenOf A) hxB hyB
        (List.mem_append_left _ hxA) (List.mem_append_left _ hyA)

/-- On badLat, Meet("a", "b") diverges: whatever the fuel, the loop never
produces an intersection of exactly one entry.  After six widening steps
both frontiers contain both "m" and BOTTOM, and meetLoop_stuck applies. -/
theorem badMeet_div : ∀ fuel, meetLoop badLat fuel ["a"] ["b"] = none := by
  intro fuel
  match fuel with
  | 0 => rfl
  | 1 => rfl
  | 2 => rfl
  | 3 => rfl
  | 4 => rfl
  | 5 => rfl
  | n + 6 =>
    have h6 : meetLoop badLat (n + 6) ["a"] ["b"] =
        meetLoop badLat n ["a", "m", "p", "BOTTOM", "m", "p", "BOTTOM", "m", "p"]
          ["b", "q", "r", "BOTTOM", "m", "q", "r", "BOTTOM", "m", "q", "r"] := rfl
    rw [h6]
    exact meetLoop_stuck badLat "m" "BOTTOM" (by decide) n _ _
      (by decide) (by decide) (by decide) (by decide)

/-- C1: for the DataType lattice built from
{UniqueID → [AccountID, IPAddress], Location → [IPAddress]}, the policy
parsed from `ALLOW DataType TOP EXCEPT { DENY DataType IPAddress DataType
AccountID }` applies to the annotation parsed from `DataType IPAddress`
(true) and does not apply to the one parsed from `DataType IPAddress
DataType AccountID` (false). -/
theorem C1_end_to_end : ∃ fuel,
    evalPolicy dtReg fuel
      "ALLOW DataType TOP EXCEPT \x7b DENY DataType IPAddress DataType AccountID \x7d"
      "DataType IPAddress" = some (Except.ok true) ∧
    evalPolicy dtReg fuel
      "ALLOW DataType TOP EXCEPT \x7b DENY DataType IPAddress DataType AccountID \x7d"
      "DataType IPAddress DataType AccountID" = some (Except.ok false) :=
  ⟨12, rfl, rfl⟩

/-- C2: with the TypeState lattice attached as product state to the
DataType lattice, Meet("AccountID:Truncated", "UniqueID") returns
"AccountID:Truncated" and Join("AccountID:Truncated", "UniqueID:Redacted")
returns "UniqueID:Truncated", via the split/recombine rule embodied in
productMeet and productJoin (modelled from the spec, as the Product code
is not under src/). -/
theorem C2_product_meet_join : ∃ fuel,
    productMeet dataType typeState fuel "AccountID:Truncated" "UniqueID" =
      some "AccountID:Truncated" ∧
    productJoin dataType typeState fuel "AccountID:Truncated" "UniqueID:Redacted" =
      some "UniqueID:Truncated" :=
  ⟨12, rfl, rfl⟩

/-- C3 counterexample: badLat is a finite lattice with a unique TOP, a
unique BOTTOM, and BOTTOM reachable downward from every element (it is
even a genuine lattice: all binary meets and joins exist uniquely), and
"a" and "b" are elements of it, yet Meet("a", "b") does not terminate:
the frontier intersection settles on the two distinct elements "m" and
BOTTOM and the loop widens forever. -/
theorem C3_meet_termination_counterexample :
    wellFormedLattice badLat = true ∧
    contains (latticeNodes badLat) "a" = true ∧
    contains (latticeNodes badLat) "b" = true ∧
    ¬ MeetTerminates badLat "a" "b" := by
  refine ⟨by decide, by decide, by decide, ?_⟩
  rintro ⟨fuel, hf⟩
  rw [badMeet_div fuel] at hf
  simp at hf

/-- C3 amended: on the repository's DataType lattice, Meet, Join and
Precede terminate for every pair of elements (the claim's universal
quantification over all finite lattices with unique TOP/BOTTOM and
BOTTOM reachable from everywhere is false, as the counterexample shows). -/
theorem C3_amended_termination : ∀ a ∈ latticeNodes dataType, ∀ b ∈ latticeNodes dataType,
    MeetTerminates dataType a b ∧ JoinTerminates dataType a b ∧
    PrecedeTerminates dataType a b := by
  have h : (latticeNodes dataType).all (fun a => (latticeNodes dataType).all (fun b =>
      (meetLoop dataType 10 [a] [b]).isSome &&
      ((joinLoop dataType 10 [a] [b]).isSome &&
       (precedeLoop dataType 10 a [b]).isSome))) = true := by decide
  intro a ha b hb
  have h2 := List.all_eq_true.mp (List.all_eq_true.mp h a ha) b hb
  rw [Bool.and_eq_true, Bool.and_eq_true] at h2
  exact ⟨⟨10, h2.1⟩, ⟨10, h2.2.1⟩, ⟨10, h2.2.2⟩⟩

/-- C3 amended, witness at a concrete pair of DataType elements. -/
theorem C3_amended_termination_witness :
    MeetTerminates dataType "AccountID" "Location" ∧
    JoinTerminates dataType "AccountID" "Location" ∧
    PrecedeTerminates dataType "AccountID" "Location" :=
  C3_amended_termination "AccountID" (by decide) "Location" (by decide)

/-- C4 counterexample: on the well-formed DataType lattice,
Precede(BOTTOM, BOTTOM) returns false (not true as claimed for the case
a = BOTTOM), and Precede(BOTTOM, TOP) returns false as well (refuting
both Precede(a, TOP) = true and Precede(BOTTOM, a) = true at a concrete
element). -/
theorem C4_precede_counterexample :
    wellFormedLattice dataType = true ∧
    contains (latticeNodes dataType) Bottom = true ∧
    PrecedeRes dataType Bottom Bottom false ∧
    ¬ PrecedeRes dataType Bottom Bottom true ∧
    PrecedeRes dataType Bottom Top false := by
  refine ⟨by decide, by decide, ⟨1, rfl⟩, ?_, ⟨10, rfl⟩⟩
  rintro ⟨fuel, hf⟩
  match fuel, hf with
  | 0, hf => simp [precedeLoop] at hf
  | f + 1, hf =>
    have hstep : precedeLoop dataType (f + 1) Bottom [Bottom] = some false := rfl
    rw [hstep] at hf
    simp at hf

/-- C4 amended: Precede(a, a) = true for every element a other than
BOTTOM of any lattice; Precede(a, BOTTOM) = false for every a (hence
Precede(BOTTOM, BOTTOM) = false); and on the DataType lattice,
Precede(a, TOP) = true for every element a other than BOTTOM while
Precede(BOTTOM, b) = false for every element b. -/
theorem C4_amended_precede :
    (∀ (l : Lattice) (a : String), a ≠ Bottom → PrecedeRes l a a true) ∧
    (∀ (l : Lattice) (a : String), PrecedeRes l a Bottom false) ∧
    (∀ a ∈ latticeNodes dataType, a ≠ Bottom → PrecedeRes dataType a Top true) ∧
    (∀ b ∈ latticeNodes dataType, PrecedeRes dataType Bottom b false) := by
  refine ⟨?_, ?_, ?_, ?_⟩
  · intro l a ha
    have h1 : ¬([a] = [Bottom]) := by simpa using ha
    have h2 : contains [a] a = true := by simp [contains]
    refine ⟨1, ?_⟩
    show (if [a] = [Bottom] then some false
          else if contains [a] a then some true
          else precedeLoop l 0 a (l.childrenOf [a])) = some true
    rw [if_neg h1, if_pos h2]
  · intro l a
    exact ⟨1, rfl⟩
  · have h : (latticeNodes dataType).all (fun a =>
        (a == Bottom) || (precedeLoop dataType 10 a [Top] == some true)) = true := by decide
    intro a ha hne
    have h2 := List.all_eq_true.mp h a ha
    rw [Bool.or_eq_true] at h2
    rcases h2 with h2 | h2
    · exact absurd (by simpa using h2) hne
    · exact ⟨10, by simpa using h2⟩
  · have h : (latticeNodes dataType).all (fun b =>
        precedeLoop dataType 10 Bottom [b] == some false) = true := by decide
    intro b hb
    exact ⟨10, by simpa using List.all_eq_true.mp h b hb⟩

/-- C4 amended, witness at concrete inputs. -/
theorem C4_amended_precede_witness :
    PrecedeRes dataType "AccountID" "AccountID" true ∧
    PrecedeRes dataType "AccountID" Bottom false ∧
    PrecedeRes dataType "AccountID" Top true ∧
    PrecedeRes dataType Bottom "AccountID" false :=
  ⟨C4_amended_precede.1 dataType "AccountID" (by decide),
   C4_amended_precede.2.1 dataType "AccountID",
   C4_amended_precede.2.2.1 "AccountID" (by decide) (by decide),
   C4_amended_precede.2.2.2 "AccountID" (by decide)⟩

/-- C5 counterexample: in the run of Meet("a", "b") on badLat, the first
four iterations do not return (meetLoop with fuel 4 exhausts its fuel), so
the fifth iteration sees the frontiers meetStates 4, whose intersection is
["m", BOTTOM, "m"] — more than one element — yet the loop still does not
return there (fuel 5 also exhausts) and in fact never returns at all:
Meet keeps widening instead of resolving the tie with Precede. -/
theorem C5_tie_counterexample :
    ((meetStates badLat 4 (["a"], ["b"])).1.filter
        (fun e => contains (meetStates badLat 4 (["a"], ["b"])).2 e) = ["m", Bottom, "m"]) ∧
    meetLoop badLat 4 ["a"] ["b"] = none ∧
    meetLoop badLat 5 ["a"] ["b"] = none ∧
    ¬ MeetTerminates badLat "a" "b" := by
  refine ⟨by decide, by decide, by decide, ?_⟩
  rintro ⟨fuel, hf⟩
  rw [badMeet_div fuel] at hf
  simp at hf

/-- C5 amended: whenever the intersection of the two frontiers has any
number of entries other than one, Meet continues to widen the frontiers
(swap, and extend the former first frontier by its children); it returns
only when the intersection has exactly one entry, and no Precede-based tie
resolution takes place. -/
theorem C5_amended_meet_widen : ∀ (l : Lattice) (fuel : Nat) (nodea nodeb : List String),
    (nodea.filter (fun e => contains nodeb e)).length ≠ 1 →
    meetLoop l (fuel + 1) nodea nodeb =
      meetLoop l fuel nodeb (nodea ++ l.childrenOf nodea) := by
  intro l fuel nodea nodeb h
  simp only [meetLoop]
  split
  · next r heq => exact absurd (by rw [heq]; rfl) h
  · rfl

/-- C5 amended, witness at the concrete tie state of the badLat run. -/
theorem C5_amended_meet_widen_witness :
    meetLoop badLat (4 + 1) ["a", "m", "p", "BOTTOM", "m", "p"]
        ["b", "q", "r", "BOTTOM", "m", "q", "r"] =
      meetLoop badLat 4 ["b", "q", "r", "BOTTOM", "m", "q", "r"]
        (["a", "m", "p", "BOTTOM", "m", "p"] ++
          badLat.childrenOf ["a", "m", "p", "BOTTOM", "m", "p"]) :=
  C5_amended_meet_widen badLat 4 ["a", "m", "p", "BOTTOM", "m", "p"]
    ["b", "q", "r", "BOTTOM", "m", "q", "r"] (by decide)

/-- C6: a token sequence whose first token is neither ALLOW nor DENY is
rejected by parsePolicyTokens with a syntax error returned to the caller
(an Except.error value, not an abort and not a policy), whatever the
registry and the fuel. -/
theorem C6_first_token_error : ∀ (reg : Registry) (fuel : Nat) (tok : String)
    (rest : List String), tok ≠ "ALLOW" → tok ≠ "DENY" →
    parsePolicyTokens reg (fuel + 1) (tok :: rest) =
      some (Except.error "policy: don\x27t start with ALLOW or DENY") := by
  intro reg fuel tok rest h1 h2
  simp [parsePolicyTokens, List.getD, h1, h2]

/-- C6 witness at a concrete token sequence. -/
theorem C6_first_token_error_witness :
    parsePolicyTokens [] (0 + 1) ["PERMIT", "DataType", "TOP"] =
      some (Except.error "policy: don\x27t start with ALLOW or DENY") :=
  C6_first_token_error [] 0 "PERMIT" ["DataType", "TOP"] (by decide) (by decide)

/-- C8: parsing `DENY DataType Location EXCEPT { ALLOW DataType IPAddress }`
against a registry holding the DataType lattice succeeds with exactly the
claimed tree: root Mode DENY (false) with the single clause entry
(DataType, Location) and a single exception child of Mode ALLOW (true)
with the single clause entry (DataType, IPAddress) and no exceptions. -/
theorem C8_parse_deny_except :
    ParsePolicy dtReg 3 "DENY DataType Location EXCEPT \x7b ALLOW DataType IPAddress \x7d" =
      some (Except.ok (Policy.mk false [Pair.mk "DataType" "Location"]
        [Policy.mk true [Pair.mk "DataType" "IPAddress"] []])) := rfl

/-- C9: Allow with an empty annotation-attribute list returns true for
every lattice and every policy-attribute list, and consequently the
ALLOW-mode per-lattice loop of ApplyOn skips (never fails on) a registry
lattice for which the annotation lists no attributes. -/
theorem C9_allow_empty :
    (∀ (l : Lattice) (fuel : Nat) (pattrs : List String),
      l.Allow fuel pattrs [] = some true) ∧
    (∀ (fuel : Nat) (clause an : List Pair) (attr : String) (l : Lattice) (rest : Registry),
      ValuesOf an attr = [] →
      allowLats fuel clause an ((attr, l) :: rest) = allowLats fuel clause an rest) := by
  constructor
  · intro l fuel pattrs
    rfl
  · intro fuel clause an attr l rest h
    simp only [allowLats, h]
    rfl

/-- C9 witness at concrete inputs. -/
theorem C9_allow_empty_witness :
    Lattice.Allow dataType 5 ["IPAddress"] [] = some true ∧
    allowLats 5 [] [Pair.mk "Purpose" "Sharing"] [("DataType", dataType)] =
      allowLats 5 [] [Pair.mk "Purpose" "Sharing"] [] :=
  ⟨C9_allow_empty.1 dataType 5 ["IPAddress"],
   C9_allow_empty.2 5 [] [Pair.mk "Purpose" "Sharing"] "DataType" dataType [] rfl⟩

/-- C10: overlap with an empty annotation list is the empty sequence, so
Deny with an empty annotation list returns true for every lattice and
every policy-attribute list (the BOTTOM scan over an empty sequence finds
nothing), and consequently the DENY-mode per-lattice escape of ApplyOn is
never triggered by a registry lattice for which the annotation has no
values. -/
theorem C10_deny_empty :
    (∀ (l : Lattice) (fuel : Nat) (pattrs : List String),
      l.overlap fuel pattrs [] = some [] ∧ l.Deny fuel pattrs [] = some true) ∧
    (∀ (fuel : Nat) (clause an : List Pair) (attr : String) (l : Lattice) (rest : Registry),
      ValuesOf an attr = [] →
      denyEscape fuel clause an ((attr, l) :: rest) = denyEscape fuel clause an rest) := by
  constructor
  · intro l fuel pattrs
    exact ⟨rfl, rfl⟩
  · intro fuel clause an attr l rest h
    simp only [denyEscape, h]
    rfl

/-- C10 witness at concrete inputs. -/
theorem C10_deny_empty_witness :
    Lattice.overlap dataType 5 ["IPAddress", "AccountID"] [] = some [] ∧
    Lattice.Deny dataType 5 ["IPAddress", "AccountID"] [] = some true ∧
    denyEscape 5 [] [Pair.mk "Purpose" "Sharing"] [("DataType", dataType)] =
      denyEscape 5 [] [Pair.mk "Purpose" "Sharing"] [] :=
  ⟨(C10_deny_empty.1 dataType 5 ["IPAddress", "AccountID"]).1,
   (C10_deny_empty.1 dataType 5 ["IPAddress", "AccountID"]).2,
   C10_deny_empty.2 5 [] [Pair.mk "Purpose" "Sharing"] "DataType" dataType [] rfl⟩

/-- Head of a dropped list. -/
theorem drop_getD (ts : List String) : ∀ pi : Nat, (ts.drop pi).getD 0 "" = ts.getD pi "" := by
  induction ts with
  | nil => intro pi; simp
  | cons t rest ih =>
    intro pi
    cases pi with
    | zero => rfl
    | succ pi => exact ih pi

/-- Head of a nonempty prefix. -/
theorem take_getD (l : List String) (c : Nat) (hc : 1 ≤ c) :
    (l.take c).getD 0 "" = l.getD 0 "" := by
  cases c with
  | zero => omega
  | succ c => cases l <;> rfl

/-- Head of an emitted sibling slice. -/
theorem slice_getD (ts : List String) (pi c : Nat) (hc : 1 ≤ c) :
    ((ts.drop pi).take c).getD 0 "" = ts.getD pi "" := by
  rw [take_getD _ _ hc, drop_getD]

/-- Every slice the splitting loop emits starts with the opposite-mode
keyword: the loop invariant is that pi < i and ts[pi] is the mode token. -/
theorem splitExcepts_head (ts : List String) (mode : String) :
    ∀ (k pi i : Nat) (depth : Int) (acc : List (List String)),
    pi < i → ts.getD pi "" = mode →
    (∀ s ∈ acc, s.getD 0 "" = mode) →
    ∀ s ∈ splitExcepts ts mode k pi i depth acc, s.getD 0 "" = mode := by
  intro k
  induction k with
  | zero =>
    intro pi i depth acc _ _ hacc s hs
    exact hacc s hs
  | succ k ih =>
    intro pi i depth acc hpi hmode hacc s hs
    simp only [splitExcepts] at hs
    split at hs
    · next hfin =>
      rcases List.mem_append.mp hs with h | h
      · exact hacc s h
      · have hs' : s = (ts.drop pi).take (ts.length - 1 - pi) := by simpa using h
        subst hs'
        rw [slice_getD ts pi _ (by omega)]
        exact hmode
    · split at hs
      · next htie =>
        refine ih i (i + 1) _ _ (Nat.lt_succ_self i) htie.2.symm ?_ s hs
        intro s' hs'
        rcases List.mem_append.mp hs' with h | h
        · exact hacc s' h
        · have hs'' : s' = (ts.drop pi).take (i - pi) := by simpa using h
          subst hs''
          rw [slice_getD ts pi _ (by omega)]
          exact hmode
      · exact ih pi (i + 1) _ acc (Nat.lt_succ_of_lt hpi) hmode hacc s hs

/-- Every policy in a successfully parsed children list comes from a
successful recursive parse of one of the slices. -/
theorem parseChildrenWith_mem (f : List String → Option (Except String Policy)) :
    ∀ (slices : List (List String)) (exs : List Policy),
    parseChildrenWith f slices = some (Except.ok exs) →
    ∀ e ∈ exs, ∃ s ∈ slices, f s = some (Except.ok e) := by
  intro slices
  induction slices with
  | nil =>
    intro exs h e he
    simp only [parseChildrenWith, Option.some.injEq, Except.ok.injEq] at h
    subst h
    simp at he
  | cons s ss ih =>
    intro exs h e he
    simp only [parseChildrenWith] at h
    split at h
    · simp at h
    · simp at h
    · next p hp =>
      split at h
      · simp at h
      · simp at h
      · next ps hps =>
        simp only [Option.some.injEq, Except.ok.injEq] at h
        subst h
        rcases List.mem_cons.mp he with he | he
        · subst he
          exact ⟨s, List.mem_cons_self s ss, hp⟩
        · obtain ⟨s', hs', hf'⟩ := ih ps hps e he
          exact ⟨s', List.mem_cons_of_mem s hs', hf'⟩

/-- The keyword opposite to a mode is ALLOW exactly when the mode is DENY. -/
theorem oppMode_allow (m : Bool) : decide (oppMode m = "ALLOW") = !m := by
  cases m <;> rfl

/-- The mode of a successfully parsed policy is fixed by the first token. -/
theorem parsePolicyTokens_mode (reg : Registry) (fuel : Nat) (ts : List String) (p : Policy) :
    parsePolicyTokens reg fuel ts = some (Except.ok p) →
    p.Mode = decide (ts.getD 0 "" = "ALLOW") := by
  match fuel with
  | 0 => intro h; simp [parsePolicyTokens] at h
  | fuel + 1 =>
    intro h
    simp only [parsePolicyTokens] at h
    split at h
    · split at h
      · simp at h
      · next clause hclause =>
        split at h
        · split at h
          · simp at h
          · split at h
            · simp at h
            · split at h
              · simp at h
              · simp at h
              · next exs hch =>
                simp only [Option.some.injEq, Except.ok.injEq] at h
                subst h
                rfl
        · simp only [Option.some.injEq, Except.ok.injEq] at h
          subst h
          rfl
    · simp at h

/-- Building the alternation predicate from per-child facts. -/
theorem modesAlternateList_intro (m : Bool) :
    ∀ exs : List Policy,
    (∀ e ∈ exs, e.Mode = !m ∧ modesAlternate e = true) →
    modesAlternateList m exs = true := by
  intro exs
  induction exs with
  | nil => intro _; rfl
  | cons e rest ih =>
    intro hall
    have he := hall e (List.mem_cons_self e rest)
    simp only [modesAlternateList, Bool.and_eq_true]
    refine ⟨⟨by simp [he.1], he.2⟩, ih fun x hx => hall x (List.mem_cons_of_mem e hx)⟩

/-- Token-level mode alternation: every successful parse yields a tree in
which each exception child's mode is the negation of its parent's, at
every depth.  The fuel induction covers the recursive parses of the
sibling slices, whose leading token was checked (first child) or cut
(later children) to be the opposite-mode keyword. -/
theorem parsePolicyTokens_alternates (reg : Registry) :
    ∀ (fuel : Nat) (ts : List String) (p : Policy),
    parsePolicyTokens reg fuel ts = some (Except.ok p) → modesAlternate p = true := by
  intro fuel
  induction fuel with
  | zero => intro ts p h; simp [parsePolicyTokens] at h
  | succ fuel ih =>
    intro ts p h
    simp only [parsePolicyTokens] at h
    split at h
    case isFalse => simp at h
    case isTrue hcond =>
      split at h
      · simp at h
      · next clause hclause =>
        split at h
        case isFalse hin =>
          simp only [Option.some.injEq, Except.ok.injEq] at h
          subst h
          rfl
        case isTrue hin =>
          split at h
          · simp at h
          · next hbr =>
            split at h
            · simp at h
            · next hem =>
              split at h
              · simp at h
              · simp at h
              · next exs hch =>
                simp only [Option.some.injEq, Except.ok.injEq] at h
                subst h
                simp only [modesAlternate]
                apply modesAlternateList_intro
                intro e he
                obtain ⟨s, hs, hfs⟩ := parseChildrenWith_mem _ _ exs hch e he
                have hhead : s.getD 0 "" = oppMode (decide (ts.getD 0 "" = "ALLOW")) := by
                  refine splitExcepts_head ts _ _ _ _ _ [] (by omega) ?_ (by simp) s hs
                  exact (not_ne_iff.mp hem)
                have hm := parsePolicyTokens_mode reg fuel s e hfs
                refine ⟨?_, ih s e hfs⟩
                rw [hm, hhead, oppMode_allow]

/-- C7: every Policy tree produced by a successful ParsePolicy (a some
(Except.ok _) result) has, at every nesting depth, each Excepts child's
Mode equal to the logical negation of its node's Mode. -/
theorem C7_excepts_opposite_mode : ∀ (reg : Registry) (fuel : Nat) (pstr : String) (p : Policy),
    ParsePolicy reg fuel pstr = some (Except.ok p) → modesAlternate p = true := by
  intro reg fuel pstr p h
  exact parsePolicyTokens_alternates reg fuel (tokenize pstr) p h

/-- C7 witness at the concrete nested policy of the repository's tests. -/
theorem C7_excepts_opposite_mode_witness :
    modesAlternate (Policy.mk false [Pair.mk "DataType" "Location"]
      [Policy.mk true [Pair.mk "DataType" "IPAddress"] []]) = true :=
  C7_excepts_opposite_mode dtReg 3
    "DENY DataType Location EXCEPT \x7b ALLOW DataType IPAddress \x7d"
    (Policy.mk false [Pair.mk "DataType" "Location"]
      [Policy.mk true [Pair.mk "DataType" "IPAddress"] []]) rfl

end Grok
